import Mathlib

/-!
# Verification of the redemption tool's concurrency and retry core

This development shallowly embeds the core logic of the repository
(`src/cookie_pool.py`, `src/announcement_fetcher.py`, `src/redeemer.py`,
`src/api_client.py`) and proves properties of the embedded definitions.

* The per-account redemption loop (`CookieRedeemer.redeem`) is embedded as a
  fuel-indexed functional loop over an environment oracle supplying the stop
  flag, captcha images, solved captchas and submit responses per iteration.
* The multi-threaded announcement race (`AnnouncementFetcher`) is embedded as
  a small-step interleaving transition system over a shared state with one
  program counter per worker thread.
* The pipeline controller (`RedeemController.execute`) is embedded as a
  fuel-indexed function that also records a trace of the external work it
  performs.
-/

/-- Substring test on character lists: does the second list start with the
first?  Used to embed Python's `in` operator on strings. -/
def leadsWith : List Char → List Char → Bool
  | [], _ => true
  | _ :: _, [] => false
  | n :: ns, h :: hs => (n == h) && leadsWith ns hs

/-- Does `hay` contain `n` as a contiguous sublist? -/
def hasSubList (n : List Char) : List Char → Bool
  | [] => leadsWith n []
  | h :: t => leadsWith n (h :: t) || hasSubList n t

/-- Python's `needle in hay` substring containment on strings. -/
def containsSub (needle hay : String) : Bool :=
  hasSubList needle.toList hay.toList

/-! ## The submit response and its classification (`cookie_pool.py` 117-160) -/

/-- A parsed response of the redeem endpoint: `result.get("ret", -1)` and
`result.get("sMsg", "未知错误")` in `CookieRedeemer.redeem`. -/
structure SubmitResp where
  ret : Int
  sMsg : String
deriving DecidableEq, Repr

/-- `"已有测试资格" in message or "无需重复兑换" in message`
(`cookie_pool.py` line 129). -/
def alreadyMsg (m : String) : Bool :=
  containsSub "已有测试资格" m || containsSub "无需重复兑换" m

/-- The six-way classification performed by the `if` chain of
`CookieRedeemer.redeem` (lines 122-160), in source order:
`ret == 0`, then the already-qualified message test, then
`ret == 100001`, `ret == 101`, `ret == 120001`, and the catch-all. -/
inductive SubmitClass where
  | succeeded
  | alreadyQualified
  | quotaExhausted
  | notLoggedIn
  | wrongCaptcha
  | otherErr
deriving DecidableEq, Repr

/-- Classify a submit response exactly as the `if` chain of
`CookieRedeemer.redeem` does, preserving the order of the checks. -/
def classifySubmit (r : SubmitResp) : SubmitClass :=
  if r.ret = 0 then .succeeded
  else if alreadyMsg r.sMsg then .alreadyQualified
  else if r.ret = 100001 then .quotaExhausted
  else if r.ret = 101 then .notLoggedIn
  else if r.ret = 120001 then .wrongCaptcha
  else .otherErr

/-! ## `APIClient.redeem_code` (`api_client.py` 297-369) -/

/-- The outcome of the HTTP transport underlying `redeem_code`: a parsed JSON
response, a `requests.RequestException`, or any other exception. -/
inductive TransportOutcome where
  | ok (resp : SubmitResp)
  | requestErr (emsg : String)
  | otherErr (emsg : String)
deriving DecidableEq, Repr

/-- `APIClient.redeem_code`: returns the parsed response on success and a
`{"ret": -1, "sMsg": ...}` dictionary on either exception path
(`api_client.py` lines 364-369); it never raises. -/
def redeem_code : TransportOutcome → SubmitResp
  | .ok r => r
  | .requestErr e => ⟨-1, "网络请求失败: " ++ e⟩
  | .otherErr e => ⟨-1, "未知错误: " ++ e⟩

/-! ## The per-account redemption loop (`CookieRedeemer.redeem`, 56-160) -/

/-- The terminal result dictionary returned by `CookieRedeemer.redeem`:
`{"success": ..., "message": ..., "data": ...}` (`data` is absent on the
cancellation path). -/
structure RedeemOutcome where
  success : Bool
  message : String
  data : Option SubmitResp
deriving DecidableEq, Repr

/-- The environment of one account's redemption loop, indexed by the attempt
counter: the shared stop flag as observed at the top of each iteration, the
result of `APIClient.get_captcha_image`, the result of
`CaptchaHandler.get_captcha_with_image`, and the response of
`APIClient.redeem_code`.  Captcha images are byte strings, modelled as lists
of bytes. -/
structure RedeemEnv where
  stopSet : Nat → Bool
  captchaImageAt : Nat → Option (List Nat)
  captchaAt : Nat → Option String
  submitAt : Nat → SubmitResp

/-- One recorded submission of the loop: the attempt number at which it
happened, the captcha image acquired in that same iteration, and the solved
captcha text submitted with the password. -/
structure SubmissionEvent where
  attempt : Nat
  image : List Nat
  captcha : String
deriving DecidableEq, Repr

/-- The loop body of `CookieRedeemer.redeem` (lines 78-160), embedded with
fuel (one unit per iteration; `none` means the loop is still running after
that many iterations).  `attempt` is the loop's attempt counter.  Besides the
terminal result it records every submission performed, for reasoning about
challenge freshness.  Branches in source order: stop-flag check, captcha
image acquisition failure, captcha solve failure (`if not captcha`, which
also catches an empty string), then the submit-response classification. -/
def redeemGo (env : RedeemEnv) : Nat → Nat → Option RedeemOutcome × List SubmissionEvent
  | 0, _ => (none, [])
  | fuel + 1, attempt =>
    if env.stopSet attempt then
      (some ⟨false, "用户取消执行", none⟩, [])
    else
      let a := attempt + 1
      match env.captchaImageAt a with
      | none => redeemGo env fuel a
      | some img =>
        if img = [] then redeemGo env fuel a
        else
          match env.captchaAt a with
          | none => redeemGo env fuel a
          | some cap =>
            if cap = "" then redeemGo env fuel a
            else
              let resp := env.submitAt a
              let ev : SubmissionEvent := ⟨a, img, cap⟩
              match classifySubmit resp with
              | .succeeded => (some ⟨true, "兑换成功!", some resp⟩, [ev])
              | .alreadyQualified => (some ⟨true, "已有测试资格", some resp⟩, [ev])
              | .quotaExhausted =>
                  (some ⟨false, "兑换失败: " ++ resp.sMsg ++ " (兑换码已抢完)", some resp⟩, [ev])
              | .notLoggedIn =>
                  (some ⟨false, "Cookie已失效: " ++ resp.sMsg, some resp⟩, [ev])
              | .wrongCaptcha =>
                  let r := redeemGo env fuel a
                  (r.1, ev :: r.2)
              | .otherErr =>
                  let r := redeemGo env fuel a
                  (r.1, ev :: r.2)

/-- `CookieRedeemer.redeem` itself: run the loop from attempt counter 0. -/
def redeem (env : RedeemEnv) (fuel : Nat) : Option RedeemOutcome :=
  (redeemGo env fuel 0).1

/-- The submissions performed by a run of `CookieRedeemer.redeem`. -/
def redeemSubmissions (env : RedeemEnv) (fuel : Nat) : List SubmissionEvent :=
  (redeemGo env fuel 0).2

/-- An environment whose stop flag is never set and whose captcha
acquisition and solving always succeed with the given values, and whose
submit endpoint always answers `r`. -/
def steadyEnv (img : List Nat) (cap : String) (r : SubmitResp) : RedeemEnv :=
  ⟨fun _ => false, fun _ => some img, fun _ => some cap, fun _ => r⟩

/-! ## The announcement race (`announcement_fetcher.py`)

`AnnouncementFetcher` runs `thread_count` copies of `_fetch_worker` over the
shared state `stop_flag`, `success_flag`, `result`, `error` and `result_lock`.
We embed it as a small-step interleaving transition system: each worker has a
program counter, the lock-protected blocks are single atomic steps (they are
mutually exclusive in the source), and the remote call is its own step whose
outcome is chosen nondeterministically from an environment predicate.  The
state also carries ghost instrumentation (counts of authoritative writes and
of remote calls made after the stop flag was set) and the caller's external
stop token `extCancel`, which — like in the source, where
`fetch_announcement_list` takes no stop flag — no race step ever reads. -/

/-- An announcement item: `title` and `id` of one entry of
`announcementList.list` (`announcement_fetcher.py` lines 135-140). -/
structure Announcement where
  title : String
  id : Nat
deriving DecidableEq, Repr

/-- A successful discovery payload: the `announcementList.list` collection. -/
structure AnnouncementData where
  list : List Announcement
deriving DecidableEq, Repr

/-- Outcome of one `get_announcement_list` call as seen by `_fetch_worker`:
truthy data, a falsy result (`None`), an `InvalidSessionError`, or any other
exception. -/
inductive FetchOutcome where
  | data (p : AnnouncementData)
  | noData
  | sessionErr
  | otherErr
deriving DecidableEq, Repr

/-- Program counter of one worker thread in `_fetch_worker`:
`checkStop` is the `while not self.stop_flag.is_set()` test, `fetching` is
the in-flight `get_announcement_list` call, `claimWin`/`claimErr` are the
two lock-protected claim blocks, `sleeping` is the `time.sleep(0.1)` backoff,
and `done` means the thread has returned. -/
inductive WorkerPC where
  | checkStop
  | fetching
  | claimWin (p : AnnouncementData)
  | claimErr
  | sleeping
  | done
deriving DecidableEq, Repr

/-- Where a worker goes after its remote call returns: truthy data leads to
the win-claim block, `None` and generic exceptions lead to the backoff sleep,
and `InvalidSessionError` leads to the error-claim block. -/
def outcomePC : FetchOutcome → WorkerPC
  | .data p => .claimWin p
  | .noData => .sleeping
  | .sessionErr => .claimErr
  | .otherErr => .sleeping

/-- The shared state of `AnnouncementFetcher` plus ghost instrumentation.
`winWrites` counts executions of the guarded win-claim body, `errWrites` the
guarded error-claim body, and `fas w` the remote calls worker `w` issued
while `stop_flag` was already set.  `extCancel` is the caller's external stop
token (`RedeemController`'s `stop_flag`), which the fetcher never receives. -/
structure RaceState where
  stop_flag : Bool
  success_flag : Bool
  result : Option AnnouncementData
  error : Option Unit
  extCancel : Bool
  pcs : List WorkerPC
  winWrites : Nat
  errWrites : Nat
  fas : List Nat
deriving DecidableEq, Repr

/-- Labels of race steps, recording which worker moved and what it did. -/
inductive RaceLabel where
  | check (w : Nat) (stopped : Bool)
  | fetch (w : Nat) (o : FetchOutcome)
  | winWrite (w : Nat)
  | winSkip (w : Nat)
  | errWrite (w : Nat)
  | errSkip (w : Nat)
  | wake (w : Nat)
deriving DecidableEq, Repr

/-- Increment worker `w`'s after-stop remote-call counter. -/
def bumpAt (l : List Nat) (w : Nat) : List Nat :=
  l.set w (l.getD w 0 + 1)

/-- One interleaved step of the race (`_fetch_worker`, lines 44-80).  The
environment `env` constrains the possible outcomes of the remote call.
The two `with self.result_lock` blocks are atomic steps with their
`success_flag` / `error is None` guards; a worker whose guard fails still
breaks out of its loop (the `break` after each `with` block). -/
inductive RaceStep (env : FetchOutcome → Prop) :
    RaceState → RaceLabel → RaceState → Prop where
  | check_exit {s : RaceState} {w : Nat}
      (hw : s.pcs[w]? = some .checkStop) (hs : s.stop_flag = true) :
      RaceStep env s (.check w true) {s with pcs := s.pcs.set w .done}
  | check_go {s : RaceState} {w : Nat}
      (hw : s.pcs[w]? = some .checkStop) (hs : s.stop_flag = false) :
      RaceStep env s (.check w false) {s with pcs := s.pcs.set w .fetching}
  | fetch {s : RaceState} {w : Nat} {o : FetchOutcome}
      (hw : s.pcs[w]? = some .fetching) (ho : env o) :
      RaceStep env s (.fetch w o)
        {s with pcs := s.pcs.set w (outcomePC o),
                fas := if s.stop_flag then bumpAt s.fas w else s.fas}
  | winWrite {s : RaceState} {w : Nat} {p : AnnouncementData}
      (hw : s.pcs[w]? = some (.claimWin p)) (hg : s.success_flag = false) :
      RaceStep env s (.winWrite w)
        {s with result := some p, success_flag := true, stop_flag := true,
                pcs := s.pcs.set w .done, winWrites := s.winWrites + 1}
  | winSkip {s : RaceState} {w : Nat} {p : AnnouncementData}
      (hw : s.pcs[w]? = some (.claimWin p)) (hg : s.success_flag = true) :
      RaceStep env s (.winSkip w) {s with pcs := s.pcs.set w .done}
  | errWrite {s : RaceState} {w : Nat}
      (hw : s.pcs[w]? = some .claimErr) (hg : s.error = none) :
      RaceStep env s (.errWrite w)
        {s with error := some (), stop_flag := true, pcs := s.pcs.set w .done,
                errWrites := s.errWrites + 1}
  | errSkip {s : RaceState} {w : Nat}
      (hw : s.pcs[w]? = some .claimErr) (hg : s.error = some ()) :
      RaceStep env s (.errSkip w) {s with pcs := s.pcs.set w .done}
  | wake {s : RaceState} {w : Nat} (hw : s.pcs[w]? = some .sleeping) :
      RaceStep env s (.wake w) {s with pcs := s.pcs.set w .checkStop}

/-- A finite execution of the race: a list of labelled steps. -/
inductive RaceTrace (env : FetchOutcome → Prop) :
    RaceState → List RaceLabel → RaceState → Prop where
  | nil {s : RaceState} : RaceTrace env s [] s
  | cons {s s' s'' : RaceState} {l : RaceLabel} {ls : List RaceLabel}
      (h : RaceStep env s l s') (ht : RaceTrace env s' ls s'') :
      RaceTrace env s (l :: ls) s''

/-- The state right after `fetch_announcement_list` resets the flags and
starts `n` worker threads (lines 97-116); `ext` is the caller's token. -/
def raceInit (n : Nat) (ext : Bool) : RaceState :=
  ⟨false, false, none, none, ext, List.replicate n .checkStop, 0, 0,
   List.replicate n 0⟩

/-- An unconstrained remote endpoint: any call outcome is possible. -/
def envAny : FetchOutcome → Prop := fun _ => True

/-- A remote endpoint that always raises `InvalidSessionError`. -/
def envSessionInvalid : FetchOutcome → Prop := fun o => o = .sessionErr

/-- The keyword scan over the announcement list
(`fetch_announcement_list`, lines 137-149): return the id of the first item
whose title contains the keyword, else `None`. -/
def findAnnouncement (keyword : String) : List Announcement → Option Nat
  | [] => none
  | a :: rest =>
    if containsSub keyword a.title then some a.id
    else findAnnouncement keyword rest

/-- What `fetch_announcement_list` does after the wait loop exits and the
threads are joined (lines 129-151): raise the stored error if any, else scan
the stored result (an absent result yields `None`). -/
def raceReturn (keyword : String) (s : RaceState) : Except Unit (Option Nat) :=
  match s.error with
  | some e => .error e
  | none =>
    match s.result with
    | some d => .ok (findAnnouncement keyword d.list)
    | none => .ok none

/-- The mutual-exclusion invariant of the race: the guarded claim bodies run
at most once each, a decision sets the stop flag, and a worker performs at
most one remote call after the stop flag is set (the one already past its
loop check). -/
def RaceInv (s : RaceState) : Prop :=
  s.fas.length = s.pcs.length ∧
  (s.success_flag = false → s.winWrites = 0) ∧
  s.winWrites ≤ 1 ∧
  (s.error = none → s.errWrites = 0) ∧
  s.errWrites ≤ 1 ∧
  (s.success_flag = true → s.stop_flag = true) ∧
  (s.error = some () → s.stop_flag = true) ∧
  (s.stop_flag = false → ∀ c ∈ s.fas, c = 0) ∧
  (∀ c ∈ s.fas, c ≤ 1) ∧
  (s.stop_flag = true → ∀ w : Nat, s.pcs[w]? = some WorkerPC.fetching →
    s.fas[w]? = some 0)

/-- Invariant specific to a session-invalid endpoint: no worker ever holds a
win claim, and any decision or finished worker implies the error slot is
filled. -/
def SIInv (s : RaceState) : Prop :=
  s.success_flag = false ∧
  (∀ (w : Nat) (p : AnnouncementData), ¬ s.pcs[w]? = some (WorkerPC.claimWin p)) ∧
  (s.stop_flag = true → s.error = some ()) ∧
  (∀ w : Nat, s.pcs[w]? = some WorkerPC.done → s.error = some ())

/-- Steps remaining for one worker under a session-invalid endpoint. -/
def pcMeasure : WorkerPC → Nat
  | .done => 0
  | .claimErr => 1
  | .claimWin _ => 1
  | .fetching => 2
  | .checkStop => 3
  | .sleeping => 4

/-- Total termination measure of the race under a session-invalid endpoint. -/
def raceMeasure (s : RaceState) : Nat :=
  (s.pcs.map pcMeasure).sum

/-- Final race state of the session-invalid witness run with one worker. -/
def raceSIEnd : RaceState :=
  ⟨true, false, none, some (), false, [.done], 0, 1, [0]⟩

/-- Final race state of the single-winner witness run with one worker. -/
def raceWinEnd : RaceState :=
  ⟨true, true, some ⟨[]⟩, none, false, [.done], 1, 0, [0]⟩

/-- Labels of a run in which the external token is set the whole time yet a
lone worker keeps polling: two full backoff intervals elapse and two further
remote calls are issued. -/
def cancelIgnoredTrace : List RaceLabel :=
  [.check 0 false, .fetch 0 .noData, .wake 0,
   .check 0 false, .fetch 0 .noData, .wake 0, .check 0 false]

/-- End state of `cancelIgnoredTrace`: the worker is once more in-flight. -/
def cancelIgnoredEnd : RaceState :=
  ⟨false, false, none, none, true, [.fetching], 0, 0, [0]⟩

/-- A loop environment whose stop flag is set from the start. -/
def stoppedEnv : RedeemEnv :=
  ⟨fun _ => true, fun _ => none, fun _ => none, fun _ => ⟨-1, ""⟩⟩

/-! ## The pool coordinator (`CookiePool.execute_concurrent`, 207-255) and
the pipeline controller (`RedeemController.execute`, 62-234) -/

instance : Inhabited RedeemEnv :=
  ⟨⟨fun _ => false, fun _ => none, fun _ => none, fun _ => ⟨-1, "未知错误"⟩⟩⟩

/-- `CookiePool.execute_concurrent`: a `results` array of `len(redeemers)`
`None` slots; each worker thread, upon completing, writes its own redeem
outcome at its own index; the call returns after joining all threads.  The
nondeterministic completion order is the parameter `order`; `redeem` of the
`i`-th account environment with the given fuel is what worker `i` writes
(still `none` if that account's loop has not terminated, in which case the
real `join` would block). -/
def execute_concurrent (renvs : List RedeemEnv) (fuel : Nat)
    (order : List Nat) : List (Option RedeemOutcome) :=
  order.foldl (fun acc i => acc.set i (redeem (renvs.getD i default) fuel))
    (List.replicate renvs.length none)

/-- `sum(1 for r in results if r and r.get("success"))`
(`redeemer.py` line 212). -/
def success_count (results : List (Option RedeemOutcome)) : Nat :=
  results.countP fun r => match r with
    | some d => d.success
    | none => false

/-- The final pipeline result dictionary of `RedeemController.execute`:
`success`, `message`, and the `data` payload (`results`, `success_count`,
`total_count`; all empty for error results). -/
structure PipeResult where
  success : Bool
  message : String
  results : List (Option RedeemOutcome)
  success_count : Nat
  total_count : Nat
deriving DecidableEq, Repr

/-- `RedeemController._error_result` (lines 247-262). -/
def errorResult (m : String) : PipeResult :=
  ⟨false, m, [], 0, 0⟩

/-- The result statistics and aggregate verdict of `RedeemController.execute`
(lines 211-230): success iff at least one per-account result dictionary is
truthy with a true `success` field. -/
def aggregateResult (results : List (Option RedeemOutcome)) : PipeResult :=
  let k := success_count results
  let n := results.length
  if k > 0 then
    ⟨true, s!"兑换完成: 成功{k}/{n}个Cookie", results, k, n⟩
  else
    ⟨false, s!"所有Cookie兑换失败(共{n}个)", results, 0, n⟩

/-- The configuration values `RedeemController.execute` consults. -/
structure PipeConfig where
  announcement_keyword : String
  web_cookies : List String

/-- The environment of one pipeline run: the shared stop flag as read at
the `tick`-th loop-top check, the result of the `attempt`-th
`fetch_announcement_list` call, of the `attempt`-th
`get_announcement_detail(annId)` call (its `content.text`), the password
extractor, and the per-account loop environments of the cookie pool. -/
structure PipeEnv where
  stopAt : Nat → Bool
  fetchAnn : Nat → Option Nat
  detailAt : Nat → Nat → Option String
  extract : String → Option String
  renvs : List RedeemEnv

/-- The external work performed by a pipeline run, in order: discovery race
invocations, detail retrievals, extraction attempts, and the start of the
concurrent redemption. -/
inductive PipeEvent where
  | discoveryCall (attempt : Nat)
  | detailCall (attempt : Nat)
  | extractCall (attempt : Nat)
  | redeemStart
deriving DecidableEq, Repr

/-- The status of one poll-until-success stage: an early `return` of the
whole `execute` (cancellation), a value with the advanced stop-check tick,
or still spinning when the fuel runs out. -/
inductive StageOut (α : Type) where
  | halt (r : PipeResult)
  | val (a : α) (tick : Nat)
  | spin

/-- Step-1 loop of `execute` (lines 94-124): poll
`fetch_announcement_list` until an id is found, checking the stop flag at
the top of each iteration. -/
def discoverLoop (env : PipeEnv) : Nat → Nat → Nat → StageOut Nat × List PipeEvent
  | 0, _, _ => (.spin, [])
  | fuel + 1, tick, attempt =>
    if env.stopAt tick then (.halt (errorResult "用户取消执行"), [])
    else
      let a := attempt + 1
      match env.fetchAnn a with
      | some annId => (.val annId (tick + 1), [.discoveryCall a])
      | none =>
        let r := discoverLoop env fuel (tick + 1) a
        (r.1, .discoveryCall a :: r.2)

/-- Step-2 loop of `execute` (lines 126-154): poll
`get_announcement_detail` until it returns content. -/
def detailLoop (env : PipeEnv) (annId : Nat) :
    Nat → Nat → Nat → StageOut String × List PipeEvent
  | 0, _, _ => (.spin, [])
  | fuel + 1, tick, attempt =>
    if env.stopAt tick then (.halt (errorResult "用户取消执行"), [])
    else
      let a := attempt + 1
      match env.detailAt annId a with
      | some content => (.val content (tick + 1), [.detailCall a])
      | none =>
        let r := detailLoop env annId fuel (tick + 1) a
        (r.1, .detailCall a :: r.2)

/-- Step-3 loop of `execute` (lines 156-187): feed the fixed retrieved
content to the extractor until a password comes back.  (A falsy-but-not-None
extractor result would exit the source loop after one more backoff; the
embedding collapses that backoff.) -/
def extractLoop (env : PipeEnv) (content : String) :
    Nat → Nat → Nat → StageOut String × List PipeEvent
  | 0, _, _ => (.spin, [])
  | fuel + 1, tick, attempt =>
    if env.stopAt tick then (.halt (errorResult "用户取消执行"), [])
    else
      let a := attempt + 1
      match env.extract content with
      | some pw => (.val pw (tick + 1), [.extractCall a])
      | none =>
        let r := extractLoop env content fuel (tick + 1) a
        (r.1, .extractCall a :: r.2)

/-- `RedeemController.execute` (lines 62-234): keyword precondition, then the
three poll stages, then the cookie-pool precondition (`if not
self.cookie_pool`, which is `None` exactly when `web_cookies` was empty at
construction), then the concurrent redemption and the aggregate verdict.
Returns `none` when still polling after `fuel` iterations of some stage;
also returns the ordered trace of external work performed. -/
def execute (cfg : PipeConfig) (env : PipeEnv) (fuel : Nat)
    (order : List Nat) : Option PipeResult × List PipeEvent :=
  if cfg.announcement_keyword = "" then
    (some (errorResult "公告关键字未配置"), [])
  else
    match discoverLoop env fuel 0 0 with
    | (.spin, evs) => (none, evs)
    | (.halt r, evs) => (some r, evs)
    | (.val annId tick1, evs1) =>
      match detailLoop env annId fuel tick1 0 with
      | (.spin, evs) => (none, evs1 ++ evs)
      | (.halt r, evs) => (some r, evs1 ++ evs)
      | (.val content tick2, evs2) =>
        match extractLoop env content fuel tick2 0 with
        | (.spin, evs) => (none, evs1 ++ evs2 ++ evs)
        | (.halt r, evs) => (some r, evs1 ++ evs2 ++ evs)
        | (.val _ _, evs3) =>
          if cfg.web_cookies = [] then
            (some (errorResult "Cookie池未初始化,请添加至少一个Cookie"),
             evs1 ++ evs2 ++ evs3)
          else
            (some (aggregateResult (execute_concurrent env.renvs fuel order)),
             evs1 ++ evs2 ++ evs3 ++ [.redeemStart])

/-- A pipeline environment whose discovery, detail and extraction succeed on
the first try, with no accounts and no cancellation. -/
def promptEnv : PipeEnv :=
  ⟨fun _ => false, fun _ => some 11, fun _ _ => some "content",
   fun _ => some "pwd", []⟩

/-- Well-formedness of a submission trace produced from attempt counter
`attempt`: submissions happen at strictly increasing attempt numbers, all
beyond `attempt`, and each submission's image and captcha are exactly the
ones acquired and solved at its own attempt (with the loop's emptiness
guards and the stop flag observed unset at that iteration's top). -/
def EventsOK (env : RedeemEnv) (attempt : Nat) (evs : List SubmissionEvent) : Prop :=
  evs.Pairwise (fun e1 e2 => e1.attempt < e2.attempt) ∧
  ∀ e ∈ evs, attempt < e.attempt ∧ env.stopSet (e.attempt - 1) = false ∧
    env.captchaImageAt e.attempt = some e.image ∧ ¬ e.image = [] ∧
    env.captchaAt e.attempt = some e.captcha ∧ ¬ e.captcha = ""

/-- A concrete loop environment for witnesses: the captcha solve fails at
attempt 1 and succeeds from attempt 2 on, while the submit endpoint always
answers with the wrong-captcha code. -/
def solveFlakyEnv : RedeemEnv :=
  ⟨fun _ => false, fun n => some [n], fun n => if n = 1 then none else some "abcd",
   fun _ => ⟨120001, "验证码错误"⟩⟩

/-! ## Helper lemmas about the redemption loop -/

/-- In a steady environment whose submit response classifies as a retried
outcome, the loop never produces a terminal result, whatever the fuel. -/
theorem redeemGo_steady_none (img : List Nat) (cap : String) (r : SubmitResp)
    (himg : ¬ img = []) (hcap : ¬ cap = "")
    (hc : classifySubmit r = .wrongCaptcha ∨ classifySubmit r = .otherErr) :
    ∀ fuel attempt, (redeemGo (steadyEnv img cap r) fuel attempt).1 = none := by
  intro fuel
  induction fuel with
  | zero => intro attempt; rfl
  | succ n ih =>
    intro attempt
    rcases hc with hc | hc <;>
      (simp [redeemGo, steadyEnv, himg, hcap, hc]; exact ih (attempt + 1))

/-- Unfolding a single successful-acquisition iteration of the loop. -/
theorem redeemGo_steady_one (img : List Nat) (cap : String) (r : SubmitResp)
    (himg : ¬ img = []) (hcap : ¬ cap = "") (fuel attempt : Nat) :
    redeemGo (steadyEnv img cap r) (fuel + 1) attempt =
      (match classifySubmit r with
        | .succeeded => (some ⟨true, "兑换成功!", some r⟩, [⟨attempt + 1, img, cap⟩])
        | .alreadyQualified => (some ⟨true, "已有测试资格", some r⟩, [⟨attempt + 1, img, cap⟩])
        | .quotaExhausted =>
            (some ⟨false, "兑换失败: " ++ r.sMsg ++ " (兑换码已抢完)", some r⟩,
             [⟨attempt + 1, img, cap⟩])
        | .notLoggedIn =>
            (some ⟨false, "Cookie已失效: " ++ r.sMsg, some r⟩, [⟨attempt + 1, img, cap⟩])
        | .wrongCaptcha =>
            ((redeemGo (steadyEnv img cap r) fuel (attempt + 1)).1,
             ⟨attempt + 1, img, cap⟩ :: (redeemGo (steadyEnv img cap r) fuel (attempt + 1)).2)
        | .otherErr =>
            ((redeemGo (steadyEnv img cap r) fuel (attempt + 1)).1,
             ⟨attempt + 1, img, cap⟩ :: (redeemGo (steadyEnv img cap r) fuel (attempt + 1)).2)) := by
  cases hc : classifySubmit r <;> simp [redeemGo, steadyEnv, himg, hcap, hc]

/-- C2: For every response of the submit operation, the per-account
redemption loop classifies it so that a success code (`ret` 0) is a success
terminal, an already-qualified message is a success terminal, quota
exhaustion (`ret` 100001) and an invalid session (`ret` 101) are non-retried
failure terminals returned immediately with `success = false`, and every
other code (including the wrong-captcha code 120001) makes the loop retry
without terminating, with no cap on the number of attempts. -/
theorem C2_submit_classification (img : List Nat) (cap : String) (r : SubmitResp)
    (himg : ¬ img = []) (hcap : ¬ cap = "") :
    (r.ret = 0 →
      classifySubmit r = .succeeded ∧
      redeem (steadyEnv img cap r) 1 = some ⟨true, "兑换成功!", some r⟩) ∧
    (r.ret ≠ 0 → alreadyMsg r.sMsg = true →
      classifySubmit r = .alreadyQualified ∧
      redeem (steadyEnv img cap r) 1 = some ⟨true, "已有测试资格", some r⟩) ∧
    (r.ret = 100001 → alreadyMsg r.sMsg = false →
      classifySubmit r = .quotaExhausted ∧
      redeem (steadyEnv img cap r) 1 =
        some ⟨false, "兑换失败: " ++ r.sMsg ++ " (兑换码已抢完)", some r⟩) ∧
    (r.ret = 101 → alreadyMsg r.sMsg = false →
      classifySubmit r = .notLoggedIn ∧
      redeem (steadyEnv img cap r) 1 = some ⟨false, "Cookie已失效: " ++ r.sMsg, some r⟩) ∧
    (r.ret ≠ 0 → r.ret ≠ 100001 → r.ret ≠ 101 → alreadyMsg r.sMsg = false →
      (classifySubmit r = .wrongCaptcha ∨ classifySubmit r = .otherErr) ∧
      ∀ fuel, redeem (steadyEnv img cap r) fuel = none) := by
  refine ⟨fun h0 => ?_, fun h0 hm => ?_, fun h0 hm => ?_, fun h0 hm => ?_,
    fun h0 h1 h2 hm => ?_⟩
  · have hc : classifySubmit r = .succeeded := by simp [classifySubmit, h0]
    exact ⟨hc, by simp [redeem, redeemGo_steady_one img cap r himg hcap 0 0, hc]⟩
  · have hc : classifySubmit r = .alreadyQualified := by
      simp [classifySubmit, h0, hm]
    exact ⟨hc, by simp [redeem, redeemGo_steady_one img cap r himg hcap 0 0, hc]⟩
  · have hc : classifySubmit r = .quotaExhausted := by
      simp [classifySubmit, h0, hm]
    exact ⟨hc, by simp [redeem, redeemGo_steady_one img cap r himg hcap 0 0, hc]⟩
  · have hc : classifySubmit r = .notLoggedIn := by
      simp [classifySubmit, h0, hm]
    exact ⟨hc, by simp [redeem, redeemGo_steady_one img cap r himg hcap 0 0, hc]⟩
  · have hc : classifySubmit r = .wrongCaptcha ∨ classifySubmit r = .otherErr := by
      simp [classifySubmit, h0, h1, h2, hm]
      exact em _
    exact ⟨hc, fun fuel => redeemGo_steady_none img cap r himg hcap hc fuel 0⟩

/-- Witness for C2 at the spec's scenario `{ret: 100001, sMsg: "已抢完"}`:
quota exhaustion is an immediate non-retried failure terminal, and the
wrong-captcha response `{ret: 120001, sMsg: "验证码错误"}` retries forever. -/
theorem C2_submit_classification_witness :
    redeem (steadyEnv [1] "abcd" ⟨100001, "已抢完"⟩) 1 =
      some ⟨false, "兑换失败: 已抢完 (兑换码已抢完)", some ⟨100001, "已抢完"⟩⟩ ∧
    redeem (steadyEnv [1] "abcd" ⟨120001, "验证码错误"⟩) 5 = none := by
  have h1 := C2_submit_classification [1] "abcd" ⟨100001, "已抢完"⟩
    (by decide) (by decide)
  have h2 := C2_submit_classification [1] "abcd" ⟨120001, "验证码错误"⟩
    (by decide) (by decide)
  exact ⟨(h1.2.2.1 rfl (by decide)).2,
    (h2.2.2.2.2 (by decide) (by decide) (by decide) (by decide)).2 5⟩

/-- C3 counterexample: the source checks `ret == 0` *before* the
already-qualified message test (`cookie_pool.py` lines 122 and 129), so a
response whose message indicates already-qualified but whose code is 0 is
classified `Succeeded`, not `AlreadyQualified` — the message check is not
performed before every numeric-code check and the claimed terminal does not
arise regardless of the numeric code. -/
theorem C3_message_precedence_counterexample :
    alreadyMsg "已有测试资格，无需重复兑换" = true ∧
    classifySubmit ⟨0, "已有测试资格，无需重复兑换"⟩ = .succeeded ∧
    ¬ classifySubmit ⟨0, "已有测试资格，无需重复兑换"⟩ = .alreadyQualified ∧
    redeem (steadyEnv [1] "abcd" ⟨0, "已有测试资格，无需重复兑换"⟩) 1 =
      some ⟨true, "兑换成功!", some ⟨0, "已有测试资格，无需重复兑换"⟩⟩ := by
  refine ⟨by decide, by decide, by decide, by decide⟩

/-- C3 (amended): the already-qualified message test precedes every
*failure*-code check (100001, 101, 120001 and the catch-all) but follows the
success check `ret == 0`; hence a response whose message indicates
already-qualified and whose code is non-zero yields the `AlreadyQualified`
terminal with `success = true`, regardless of which non-zero code it
carries — in particular for code 1. -/
theorem C3_message_precedence_amended (ret : Int) (msg : String)
    (img : List Nat) (cap : String)
    (h0 : ret ≠ 0) (hm : alreadyMsg msg = true)
    (himg : ¬ img = []) (hcap : ¬ cap = "") :
    classifySubmit ⟨ret, msg⟩ = .alreadyQualified ∧
    redeem (steadyEnv img cap ⟨ret, msg⟩) 1 =
      some ⟨true, "已有测试资格", some ⟨ret, msg⟩⟩ := by
  have hc : classifySubmit ⟨ret, msg⟩ = .alreadyQualified := by
    simp [classifySubmit, h0, hm]
  exact ⟨hc, by simp [redeem, redeemGo_steady_one img cap _ himg hcap 0 0, hc]⟩

/-- Witness for the amended C3 at the spec scenario
`{code: 1, message: "已有测试资格，无需重复兑换"}`. -/
theorem C3_message_precedence_amended_witness :
    classifySubmit ⟨1, "已有测试资格，无需重复兑换"⟩ = .alreadyQualified ∧
    redeem (steadyEnv [1] "abcd" ⟨1, "已有测试资格，无需重复兑换"⟩) 1 =
      some ⟨true, "已有测试资格", some ⟨1, "已有测试资格，无需重复兑换"⟩⟩ :=
  C3_message_precedence_amended 1 "已有测试资格，无需重复兑换" [1] "abcd"
    (by decide) (by decide) (by decide) (by decide)

/-- C10: `APIClient.redeem_code` is total for the account loop — on a
transport (`requests.RequestException`) or parsing exception it returns a
`{"ret": -1, "sMsg": ...}` dictionary instead of raising, and as long as the
exception text does not accidentally contain the already-qualified marker the
loop classifies the response under the catch-all branch and keeps retrying
(never terminating that account's loop and never surfacing an exception). -/
theorem C10_transport_failure_retries (emsg : String) (img : List Nat) (cap : String)
    (himg : ¬ img = []) (hcap : ¬ cap = "") :
    (redeem_code (.requestErr emsg)).ret = -1 ∧
    (redeem_code (.otherErr emsg)).ret = -1 ∧
    (alreadyMsg ("网络请求失败: " ++ emsg) = false →
      classifySubmit (redeem_code (.requestErr emsg)) = .otherErr ∧
      ∀ fuel, redeem (steadyEnv img cap (redeem_code (.requestErr emsg))) fuel = none) ∧
    (alreadyMsg ("未知错误: " ++ emsg) = false →
      classifySubmit (redeem_code (.otherErr emsg)) = .otherErr ∧
      ∀ fuel, redeem (steadyEnv img cap (redeem_code (.otherErr emsg))) fuel = none) := by
  refine ⟨rfl, rfl, fun hm => ?_, fun hm => ?_⟩
  · have hc : classifySubmit (redeem_code (.requestErr emsg)) = SubmitClass.otherErr := by
      simp [classifySubmit, redeem_code, hm]
    exact ⟨hc, fun fuel =>
      redeemGo_steady_none img cap _ himg hcap (Or.inr hc) fuel 0⟩
  · have hc : classifySubmit (redeem_code (.otherErr emsg)) = SubmitClass.otherErr := by
      simp [classifySubmit, redeem_code, hm]
    exact ⟨hc, fun fuel =>
      redeemGo_steady_none img cap _ himg hcap (Or.inr hc) fuel 0⟩

/-- Witness for C10: a concrete timeout exception yields `ret = -1`, the
catch-all classification, and a still-running loop after 4 iterations. -/
theorem C10_transport_failure_retries_witness :
    (redeem_code (.requestErr "timeout")).ret = -1 ∧
    classifySubmit (redeem_code (.requestErr "timeout")) = .otherErr ∧
    redeem (steadyEnv [1] "abcd" (redeem_code (.requestErr "timeout"))) 4 = none := by
  have h := C10_transport_failure_retries "timeout" [1] "abcd" (by decide) (by decide)
  have h3 := h.2.2.1 (by decide)
  exact ⟨h.1, h3.1, h3.2 4⟩

/-- An empty submission trace is well-formed. -/
theorem eventsOK_nil (env : RedeemEnv) (attempt : Nat) : EventsOK env attempt [] :=
  ⟨List.Pairwise.nil, by simp⟩

/-- A trace well-formed from a later attempt counter is well-formed from an
earlier one. -/
theorem eventsOK_mono (env : RedeemEnv) (attempt : Nat) (evs : List SubmissionEvent)
    (h : EventsOK env (attempt + 1) evs) : EventsOK env attempt evs :=
  ⟨h.1, fun e he => ⟨Nat.lt_of_succ_lt (h.2 e he).1, (h.2 e he).2⟩⟩

/-- Prepending the current iteration's submission keeps a trace well-formed. -/
theorem eventsOK_cons (env : RedeemEnv) (attempt : Nat) (img : List Nat) (cap : String)
    (evs : List SubmissionEvent)
    (hstop : env.stopSet attempt = false)
    (himg : env.captchaImageAt (attempt + 1) = some img) (himgne : ¬ img = [])
    (hcap : env.captchaAt (attempt + 1) = some cap) (hcapne : ¬ cap = "")
    (h : EventsOK env (attempt + 1) evs) :
    EventsOK env attempt (⟨attempt + 1, img, cap⟩ :: evs) := by
  refine ⟨List.pairwise_cons.2 ⟨fun e he => (h.2 e he).1, h.1⟩, ?_⟩
  intro e he
  rcases List.mem_cons.1 he with rfl | he
  · exact ⟨Nat.lt_succ_self attempt, by simpa using hstop, himg, himgne, hcap, hcapne⟩
  · exact ⟨Nat.lt_of_succ_lt (h.2 e he).1, (h.2 e he).2⟩

/-- The submission trace produced by the loop from any attempt counter is
well-formed. -/
theorem redeemGo_events (env : RedeemEnv) :
    ∀ fuel attempt, EventsOK env attempt (redeemGo env fuel attempt).2 := by
  intro fuel
  induction fuel with
  | zero => intro attempt; exact eventsOK_nil env attempt
  | succ n ih =>
    intro attempt
    by_cases hstop : env.stopSet attempt
    · simp only [redeemGo, hstop, if_true]
      exact eventsOK_nil env attempt
    · cases himg : env.captchaImageAt (attempt + 1) with
      | none =>
        simp only [redeemGo, hstop, if_false, himg, Bool.false_eq_true]
        exact eventsOK_mono env attempt _ (ih (attempt + 1))
      | some img =>
        by_cases himgne : img = []
        · simp only [redeemGo, hstop, if_false, himg, himgne, if_true, Bool.false_eq_true]
          exact eventsOK_mono env attempt _ (ih (attempt + 1))
        · cases hcap : env.captchaAt (attempt + 1) with
          | none =>
            simp only [redeemGo, hstop, if_false, himg, himgne, hcap, Bool.false_eq_true]
            exact eventsOK_mono env attempt _ (ih (attempt + 1))
          | some cap =>
            by_cases hcapne : cap = ""
            · simp only [redeemGo, hstop, if_false, himg, himgne, hcap, hcapne, if_true,
                Bool.false_eq_true]
              exact eventsOK_mono env attempt _ (ih (attempt + 1))
            · have hstop' : env.stopSet attempt = false := by
                simpa using hstop
              cases hclass : classifySubmit (env.submitAt (attempt + 1)) <;>
                simp only [redeemGo, hstop, if_false, himg, himgne, hcap, hcapne, hclass,
                  Bool.false_eq_true] <;>
                first
                | exact eventsOK_cons env attempt img cap _ hstop' himg himgne hcap hcapne
                    (eventsOK_nil env (attempt + 1))
                | exact eventsOK_cons env attempt img cap _ hstop' himg himgne hcap hcapne
                    (ih (attempt + 1))

/-- C7: In every execution of the per-account redemption loop, each
submission uses a challenge acquired fresh in the same iteration (its image
and solved captcha are exactly the ones obtained at its own attempt number);
submissions happen at strictly increasing attempt numbers, so a challenge
submitted once is never submitted again; and an iteration whose solve failed
contributes no submission, so its challenge is never submitted later. -/
theorem C7_challenge_freshness (env : RedeemEnv) (fuel : Nat) :
    (redeemSubmissions env fuel).Pairwise (fun e1 e2 => e1.attempt < e2.attempt) ∧
    (∀ e ∈ redeemSubmissions env fuel,
      env.captchaImageAt e.attempt = some e.image ∧ ¬ e.image = [] ∧
      env.captchaAt e.attempt = some e.captcha ∧ ¬ e.captcha = "") ∧
    (∀ k, env.captchaAt k = none →
      ∀ e ∈ redeemSubmissions env fuel, e.attempt ≠ k) := by
  have h := redeemGo_events env fuel 0
  refine ⟨h.1, fun e he => ?_, fun k hk e he hek => ?_⟩
  · exact ⟨(h.2 e he).2.2.1, (h.2 e he).2.2.2.1, (h.2 e he).2.2.2.2.1,
      (h.2 e he).2.2.2.2.2⟩
  · have := (h.2 e he).2.2.2.2.1
    rw [hek, hk] at this
    exact Option.noConfusion this

/-- Witness for C7 in `solveFlakyEnv` with fuel 3: the solve failure at
attempt 1 produces no submission, and the two submissions that do happen are
at the strictly increasing attempts 2 and 3 with their own images. -/
theorem C7_challenge_freshness_witness :
    (redeemSubmissions solveFlakyEnv 3).Pairwise (fun e1 e2 => e1.attempt < e2.attempt) ∧
    (∀ e ∈ redeemSubmissions solveFlakyEnv 3, e.attempt ≠ 1) ∧
    redeemSubmissions solveFlakyEnv 3 = [⟨2, [2], "abcd"⟩, ⟨3, [3], "abcd"⟩] := by
  have h := C7_challenge_freshness solveFlakyEnv 3
  exact ⟨h.1, fun e he => h.2.2 1 (by decide) e he, by decide⟩

/-! ## Helper lemmas about the race -/

/-- A returning remote call never leaves the worker in-flight. -/
theorem outcomePC_ne_fetching (o : FetchOutcome) : ¬ outcomePC o = .fetching := by
  cases o <;> simp [outcomePC]

/-- Setting an index below the length is observable at that index. -/
theorem getElem?_set_self_of_lt {α : Type} (l : List α) (w : Nat) (a : α)
    (h : w < l.length) : (l.set w a)[w]? = some a := by
  rw [List.getElem?_set_self']
  simp [h]

/-- The index of any successful lookup is below the length. -/
theorem lt_of_getElem?_some {α : Type} {l : List α} {w : Nat} {a : α}
    (h : l[w]? = some a) : w < l.length :=
  (List.getElem?_eq_some_iff.1 h).1

/-- An in-flight worker's after-stop counter reads zero, whatever the flag. -/
theorem fas_at_zero {s : RaceState} (hlen : s.fas.length = s.pcs.length)
    (hfz : s.stop_flag = false → ∀ c ∈ s.fas, c = 0)
    (hff : s.stop_flag = true → ∀ w : Nat, s.pcs[w]? = some WorkerPC.fetching →
      s.fas[w]? = some 0)
    (u : Nat) (hu : s.pcs[u]? = some WorkerPC.fetching) : s.fas[u]? = some 0 := by
  cases hst : s.stop_flag with
  | true => exact hff hst u hu
  | false =>
    have hul : u < s.fas.length := by rw [hlen]; exact lt_of_getElem?_some hu
    rw [List.getElem?_eq_getElem hul, hfz hst _ (List.getElem_mem hul)]

/-- The initial race state satisfies the mutual-exclusion invariant. -/
theorem raceInv_init (n : Nat) (ext : Bool) : RaceInv (raceInit n ext) := by
  refine ⟨by simp [raceInit], fun _ => rfl, by simp [raceInit], fun _ => rfl,
    by simp [raceInit], by simp [raceInit], by simp [raceInit], ?_, ?_,
    by simp [raceInit]⟩
  · intro _ c hc
    exact List.eq_of_mem_replicate hc
  · intro c hc
    have := List.eq_of_mem_replicate hc
    omega

/-- Every race step preserves the mutual-exclusion invariant. -/
theorem raceInv_step {env : FetchOutcome → Prop} {s : RaceState} {l : RaceLabel}
    {s' : RaceState} (h : RaceStep env s l s') (hv : RaceInv s) : RaceInv s' := by
  obtain ⟨hlen, hw0, hw1, he0, he1, hsf, hef, hfz, hf1, hff⟩ := hv
  cases h with
  | @check_exit w hw hs =>
    refine ⟨by simpa using hlen, hw0, hw1, he0, he1, hsf, hef, hfz, hf1, ?_⟩
    intro hstop u hu
    dsimp only at hstop hu ⊢
    by_cases huw : u = w
    · subst huw
      rw [getElem?_set_self_of_lt _ _ _ (lt_of_getElem?_some hw)] at hu
      exact absurd hu (by simp)
    · rw [List.getElem?_set_ne (Ne.symm huw)] at hu
      exact hff hstop u hu
  | @check_go w hw hs =>
    refine ⟨by simpa using hlen, hw0, hw1, he0, he1, hsf, hef, hfz, hf1, ?_⟩
    intro hstop _ _
    dsimp only at hstop
    exact absurd (hs.symm.trans hstop) (by simp)
  | @fetch w o hw ho =>
    cases hst : s.stop_flag with
    | false =>
      refine ⟨?_, hw0, hw1, he0, he1, fun hh => hst.symm.trans (hsf hh),
        fun hh => hst.symm.trans (hef hh), ?_, ?_, ?_⟩
      · dsimp only
        simp [hlen]
      · intro _ c hc
        dsimp only at hc
        exact hfz hst c hc
      · intro c hc
        dsimp only at hc
        exact hf1 c hc
      · intro hstop
        dsimp only at hstop
        exact absurd hstop (by simp)
    | true =>
      have hfw : s.fas[w]? = some 0 := hff hst w hw
      have hwlt : w < s.fas.length := lt_of_getElem?_some hfw
      refine ⟨?_, hw0, hw1, he0, he1, fun _ => rfl, fun _ => rfl, ?_, ?_, ?_⟩
      · dsimp only
        simp [bumpAt, hlen]
      · intro hstop
        dsimp only at hstop
        exact absurd hstop (by simp)
      · intro c hc
        dsimp only at hc
        rcases List.mem_or_eq_of_mem_set hc with hc | rfl
        · exact hf1 c hc
        · have : s.fas.getD w 0 = 0 := by simp [List.getD_eq_getElem?_getD, hfw]
          omega
      · intro _ u hu
        dsimp only at hu ⊢
        by_cases huw : u = w
        · subst huw
          rw [getElem?_set_self_of_lt _ _ _ (lt_of_getElem?_some hw)] at hu
          exact absurd ((Option.some_inj).1 hu) (outcomePC_ne_fetching o)
        · rw [List.getElem?_set_ne (Ne.symm huw)] at hu
          rw [if_pos rfl]
          simp only [bumpAt]
          rw [List.getElem?_set_ne (Ne.symm huw)]
          exact hff hst u hu
  | @winWrite w p hw hg =>
    refine ⟨by simpa using hlen, ?_, ?_, he0, he1, fun _ => rfl, fun _ => rfl,
      ?_, hf1, ?_⟩
    · intro hh
      dsimp only at hh
      exact absurd hh (by simp)
    · dsimp only
      have := hw0 hg
      omega
    · intro hh
      dsimp only at hh
      exact absurd hh (by simp)
    · intro _ u hu
      dsimp only at hu ⊢
      by_cases huw : u = w
      · subst huw
        rw [getElem?_set_self_of_lt _ _ _ (lt_of_getElem?_some hw)] at hu
        exact absurd hu (by simp)
      · rw [List.getElem?_set_ne (Ne.symm huw)] at hu
        exact fas_at_zero hlen hfz hff u hu
  | @winSkip w p hw hg =>
    refine ⟨by simpa using hlen, hw0, hw1, he0, he1, hsf, hef, hfz, hf1, ?_⟩
    intro hstop u hu
    dsimp only at hstop hu ⊢
    by_cases huw : u = w
    · subst huw
      rw [getElem?_set_self_of_lt _ _ _ (lt_of_getElem?_some hw)] at hu
      exact absurd hu (by simp)
    · rw [List.getElem?_set_ne (Ne.symm huw)] at hu
      exact hff hstop u hu
  | @errWrite w hw hg =>
    refine ⟨by simpa using hlen, hw0, hw1, ?_, ?_, fun _ => rfl, fun _ => rfl,
      ?_, hf1, ?_⟩
    · intro hh
      dsimp only at hh
      exact absurd hh (by simp)
    · dsimp only
      have := he0 hg
      omega
    · intro hh
      dsimp only at hh
      exact absurd hh (by simp)
    · intro _ u hu
      dsimp only at hu ⊢
      by_cases huw : u = w
      · subst huw
        rw [getElem?_set_self_of_lt _ _ _ (lt_of_getElem?_some hw)] at hu
        exact absurd hu (by simp)
      · rw [List.getElem?_set_ne (Ne.symm huw)] at hu
        exact fas_at_zero hlen hfz hff u hu
  | @errSkip w hw hg =>
    refine ⟨by simpa using hlen, hw0, hw1, he0, he1, hsf, hef, hfz, hf1, ?_⟩
    intro hstop u hu
    dsimp only at hstop hu ⊢
    by_cases huw : u = w
    · subst huw
      rw [getElem?_set_self_of_lt _ _ _ (lt_of_getElem?_some hw)] at hu
      exact absurd hu (by simp)
    · rw [List.getElem?_set_ne (Ne.symm huw)] at hu
      exact hff hstop u hu
  | @wake w hw =>
    refine ⟨by simpa using hlen, hw0, hw1, he0, he1, hsf, hef, hfz, hf1, ?_⟩
    intro hstop u hu
    dsimp only at hstop hu ⊢
    by_cases huw : u = w
    · subst huw
      rw [getElem?_set_self_of_lt _ _ _ (lt_of_getElem?_some hw)] at hu
      exact absurd hu (by simp)
    · rw [List.getElem?_set_ne (Ne.symm huw)] at hu
      exact hff hstop u hu

/-- The invariant holds at the end of every trace that starts in it. -/
theorem raceInv_trace {env : FetchOutcome → Prop} {s : RaceState}
    {tr : List RaceLabel} {s' : RaceState} (h : RaceTrace env s tr s')
    (hv : RaceInv s) : RaceInv s' := by
  induction h with
  | nil => exact hv
  | cons hstep _ ih => exact ih (raceInv_step hstep hv)

/-- C1: For every race with any number of workers and any remote behaviour,
at most one worker's successful discovery result becomes the authoritative
result: the guarded win-claim body runs at most once along any execution
(and never before `success_flag` is raised), so a second win write is
impossible; and once the decision sets the stop flag every worker performs
at most one further remote call — the one already past its loop check —
before its next check observes the stop signal and it exits. -/
theorem C1_single_authoritative_winner (env : FetchOutcome → Prop) (n : Nat)
    (ext : Bool) (tr : List RaceLabel) (s : RaceState)
    (h : RaceTrace env (raceInit n ext) tr s) :
    s.winWrites ≤ 1 ∧ (s.success_flag = false → s.winWrites = 0) ∧
    ∀ c ∈ s.fas, c ≤ 1 := by
  have hv := raceInv_trace h (raceInv_init n ext)
  exact ⟨hv.2.2.1, hv.2.1, hv.2.2.2.2.2.2.2.2.1⟩

/-- Witness for C1: a one-worker run that checks, fetches data and claims
the win reaches `raceWinEnd` with exactly one authoritative write and no
remote call after the stop flag was set. -/
theorem C1_single_authoritative_winner_witness :
    RaceTrace envAny (raceInit 1 false)
      [.check 0 false, .fetch 0 (.data ⟨[]⟩), .winWrite 0] raceWinEnd ∧
    raceWinEnd.winWrites ≤ 1 ∧ (∀ c ∈ raceWinEnd.fas, c ≤ 1) := by
  have htr : RaceTrace envAny (raceInit 1 false)
      [.check 0 false, .fetch 0 (.data ⟨[]⟩), .winWrite 0] raceWinEnd :=
    RaceTrace.cons (RaceStep.check_go rfl rfl)
      (RaceTrace.cons (RaceStep.fetch rfl True.intro)
        (RaceTrace.cons (RaceStep.winWrite rfl rfl) RaceTrace.nil))
  have h := C1_single_authoritative_winner envAny 1 false _ raceWinEnd htr
  exact ⟨htr, h.1, h.2.2⟩

/-- Summing a mapped list after updating one position. -/
theorem sum_map_set {α : Type} (f : α → Nat) :
    ∀ (l : List α) (w : Nat) (a b : α), l[w]? = some b →
      ((l.set w a).map f).sum + f b = (l.map f).sum + f a := by
  intro l
  induction l with
  | nil =>
    intro w a b hb
    exact absurd hb (by simp)
  | cons x xs ih =>
    intro w a b hb
    cases w with
    | zero =>
      simp only [List.getElem?_cons_zero, Option.some_inj] at hb
      subst hb
      rw [List.set_cons_zero]
      simp only [List.map_cons, List.sum_cons]
      omega
    | succ u =>
      have hb' : xs[u]? = some b := by simpa using hb
      have := ih u a b hb'
      rw [List.set_cons_succ]
      simp only [List.map_cons, List.sum_cons]
      omega

/-- The number of worker steps remaining never changes shape: race steps
keep the worker count. -/
theorem raceStep_pcs_length {env : FetchOutcome → Prop} {s : RaceState}
    {l : RaceLabel} {s' : RaceState} (h : RaceStep env s l s') :
    s'.pcs.length = s.pcs.length := by
  cases h <;> simp

/-- Trace version of `raceStep_pcs_length`. -/
theorem raceTrace_pcs_length {env : FetchOutcome → Prop} {s : RaceState}
    {tr : List RaceLabel} {s' : RaceState} (h : RaceTrace env s tr s') :
    s'.pcs.length = s.pcs.length := by
  induction h with
  | nil => rfl
  | cons hstep _ ih => rw [ih, raceStep_pcs_length hstep]

/-- The session-invalid invariant holds initially. -/
theorem SIInv_init (n : Nat) (ext : Bool) : SIInv (raceInit n ext) := by
  refine ⟨rfl, ?_, by simp [raceInit], ?_⟩
  · intro w p hp
    simp [raceInit, List.getElem?_replicate] at hp
  · intro w hw
    simp [raceInit, List.getElem?_replicate] at hw

/-- Every step under a session-invalid endpoint preserves `SIInv`. -/
theorem SIInv_step {s : RaceState} {l : RaceLabel} {s' : RaceState}
    (h : RaceStep envSessionInvalid s l s') (hv : SIInv s) : SIInv s' := by
  obtain ⟨hsucc, hnc, hse, hde⟩ := hv
  cases h with
  | @check_exit w hw hs =>
    have herr := hse hs
    refine ⟨hsucc, ?_, fun _ => herr, fun _ _ => herr⟩
    intro u p hp
    dsimp only at hp
    by_cases huw : u = w
    · subst huw
      rw [getElem?_set_self_of_lt _ _ _ (lt_of_getElem?_some hw)] at hp
      simp at hp
    · rw [List.getElem?_set_ne (Ne.symm huw)] at hp
      exact hnc u p hp
  | @check_go w hw hs =>
    refine ⟨hsucc, ?_, hse, ?_⟩
    · intro u p hp
      dsimp only at hp
      by_cases huw : u = w
      · subst huw
        rw [getElem?_set_self_of_lt _ _ _ (lt_of_getElem?_some hw)] at hp
        simp at hp
      · rw [List.getElem?_set_ne (Ne.symm huw)] at hp
        exact hnc u p hp
    · intro u hu
      dsimp only at hu
      by_cases huw : u = w
      · subst huw
        rw [getElem?_set_self_of_lt _ _ _ (lt_of_getElem?_some hw)] at hu
        simp at hu
      · rw [List.getElem?_set_ne (Ne.symm huw)] at hu
        exact hde u hu
  | @fetch w o hw ho =>
    have ho' : o = FetchOutcome.sessionErr := ho
    subst ho'
    refine ⟨hsucc, ?_, hse, ?_⟩
    · intro u p hp
      dsimp only at hp
      by_cases huw : u = w
      · subst huw
        rw [getElem?_set_self_of_lt _ _ _ (lt_of_getElem?_some hw)] at hp
        simp [outcomePC] at hp
      · rw [List.getElem?_set_ne (Ne.symm huw)] at hp
        exact hnc u p hp
    · intro u hu
      dsimp only at hu
      by_cases huw : u = w
      · subst huw
        rw [getElem?_set_self_of_lt _ _ _ (lt_of_getElem?_some hw)] at hu
        simp [outcomePC] at hu
      · rw [List.getElem?_set_ne (Ne.symm huw)] at hu
        exact hde u hu
  | @winWrite w p hw hg => exact absurd hw (hnc w p)
  | @winSkip w p hw hg => exact absurd hw (hnc w p)
  | @errWrite w hw hg =>
    refine ⟨hsucc, ?_, fun _ => rfl, fun _ _ => rfl⟩
    intro u p hp
    dsimp only at hp
    by_cases huw : u = w
    · subst huw
      rw [getElem?_set_self_of_lt _ _ _ (lt_of_getElem?_some hw)] at hp
      simp at hp
    · rw [List.getElem?_set_ne (Ne.symm huw)] at hp
      exact hnc u p hp
  | @errSkip w hw hg =>
    refine ⟨hsucc, ?_, hse, fun _ _ => hg⟩
    intro u p hp
    dsimp only at hp
    by_cases huw : u = w
    · subst huw
      rw [getElem?_set_self_of_lt _ _ _ (lt_of_getElem?_some hw)] at hp
      simp at hp
    · rw [List.getElem?_set_ne (Ne.symm huw)] at hp
      exact hnc u p hp
  | @wake w hw =>
    refine ⟨hsucc, ?_, hse, ?_⟩
    · intro u p hp
      dsimp only at hp
      by_cases huw : u = w
      · subst huw
        rw [getElem?_set_self_of_lt _ _ _ (lt_of_getElem?_some hw)] at hp
        simp at hp
      · rw [List.getElem?_set_ne (Ne.symm huw)] at hp
        exact hnc u p hp
    · intro u hu
      dsimp only at hu
      by_cases huw : u = w
      · subst huw
        rw [getElem?_set_self_of_lt _ _ _ (lt_of_getElem?_some hw)] at hu
        simp at hu
      · rw [List.getElem?_set_ne (Ne.symm huw)] at hu
        exact hde u hu

/-- `SIInv` holds at the end of every session-invalid trace started in it. -/
theorem SIInv_trace {s : RaceState} {tr : List RaceLabel} {s' : RaceState}
    (h : RaceTrace envSessionInvalid s tr s') (hv : SIInv s) : SIInv s' := by
  induction h with
  | nil => exact hv
  | cons hstep _ ih => exact ih (SIInv_step hstep hv)

/-- Under a session-invalid endpoint, every step strictly decreases the
termination measure. -/
theorem raceMeasure_step {s : RaceState} {l : RaceLabel} {s' : RaceState}
    (h : RaceStep envSessionInvalid s l s') : raceMeasure s' < raceMeasure s := by
  cases h with
  | @check_exit w hw hs =>
    have hq := sum_map_set pcMeasure s.pcs w WorkerPC.done WorkerPC.checkStop hw
    dsimp only [raceMeasure]
    simp only [pcMeasure] at hq
    omega
  | @check_go w hw hs =>
    have hq := sum_map_set pcMeasure s.pcs w WorkerPC.fetching WorkerPC.checkStop hw
    dsimp only [raceMeasure]
    simp only [pcMeasure] at hq
    omega
  | @fetch w o hw ho =>
    have ho' : o = FetchOutcome.sessionErr := ho
    subst ho'
    have hq := sum_map_set pcMeasure s.pcs w (outcomePC FetchOutcome.sessionErr)
      WorkerPC.fetching hw
    dsimp only [raceMeasure]
    simp only [outcomePC, pcMeasure] at hq ⊢
    omega
  | @winWrite w p hw hg =>
    have hq := sum_map_set pcMeasure s.pcs w WorkerPC.done (WorkerPC.claimWin p) hw
    dsimp only [raceMeasure]
    simp only [pcMeasure] at hq
    omega
  | @winSkip w p hw hg =>
    have hq := sum_map_set pcMeasure s.pcs w WorkerPC.done (WorkerPC.claimWin p) hw
    dsimp only [raceMeasure]
    simp only [pcMeasure] at hq
    omega
  | @errWrite w hw hg =>
    have hq := sum_map_set pcMeasure s.pcs w WorkerPC.done WorkerPC.claimErr hw
    dsimp only [raceMeasure]
    simp only [pcMeasure] at hq
    omega
  | @errSkip w hw hg =>
    have hq := sum_map_set pcMeasure s.pcs w WorkerPC.done WorkerPC.claimErr hw
    dsimp only [raceMeasure]
    simp only [pcMeasure] at hq
    omega
  | @wake w hw =>
    have hq := sum_map_set pcMeasure s.pcs w WorkerPC.checkStop WorkerPC.sleeping hw
    dsimp only [raceMeasure]
    simp only [pcMeasure] at hq
    omega

/-- The measure bounds the length of every session-invalid trace. -/
theorem raceTrace_SI_length {s : RaceState} {tr : List RaceLabel}
    {s' : RaceState} (h : RaceTrace envSessionInvalid s tr s') :
    tr.length + raceMeasure s' ≤ raceMeasure s := by
  induction h with
  | nil => simp
  | cons hstep _ ih =>
    have := raceMeasure_step hstep
    simp only [List.length_cons]
    omega

/-- The initial measure with `n` workers. -/
theorem raceMeasure_init (n : Nat) (ext : Bool) :
    raceMeasure (raceInit n ext) = 3 * n := by
  simp [raceMeasure, raceInit, List.map_replicate, pcMeasure, List.sum_replicate,
    Nat.smul_one_eq_cast, Nat.mul_comm]

/-- Any state with a worker that is not finished can take a step under a
session-invalid endpoint. -/
theorem raceSI_progress (s : RaceState) (w : Nat) (pc : WorkerPC)
    (hw : s.pcs[w]? = some pc) (hpc : ¬ pc = WorkerPC.done) :
    ∃ l s', RaceStep envSessionInvalid s l s' := by
  cases pc with
  | checkStop =>
    cases hst : s.stop_flag
    · exact ⟨_, _, RaceStep.check_go hw hst⟩
    · exact ⟨_, _, RaceStep.check_exit hw hst⟩
  | fetching => exact ⟨_, _, RaceStep.fetch hw rfl⟩
  | claimWin p =>
    cases hsf : s.success_flag
    · exact ⟨_, _, RaceStep.winWrite hw hsf⟩
    · exact ⟨_, _, RaceStep.winSkip hw hsf⟩
  | claimErr =>
    cases herr : s.error with
    | none => exact ⟨_, _, RaceStep.errWrite hw herr⟩
    | some u =>
      cases u
      exact ⟨_, _, RaceStep.errSkip hw herr⟩
  | sleeping => exact ⟨_, _, RaceStep.wake hw⟩
  | done => exact absurd rfl hpc

/-- C4: If the discovery operation always raises `InvalidSessionError`, the
race terminates for every worker count `n ≥ 1`: every execution is at most
`3 n` steps long, any state with an unfinished worker can still step (so
every maximal execution ends with all workers finished), the error slot is
written by at most one worker (the first observer, under the guard), and in
any all-finished state the error slot is filled, the stop flag is set, and
`fetch_announcement_list` reports the session error to its caller by
raising it. -/
theorem C4_session_invalid_terminates (n : Nat) (ext : Bool) (kw : String)
    (tr : List RaceLabel) (s : RaceState) (hn : 1 ≤ n)
    (h : RaceTrace envSessionInvalid (raceInit n ext) tr s) :
    tr.length ≤ 3 * n ∧
    s.errWrites ≤ 1 ∧
    ((∃ pc ∈ s.pcs, ¬ pc = WorkerPC.done) →
      ∃ l s', RaceStep envSessionInvalid s l s') ∧
    ((∀ pc ∈ s.pcs, pc = WorkerPC.done) →
      s.error = some () ∧ s.stop_flag = true ∧ raceReturn kw s = .error ()) := by
  have hv := raceInv_trace h (raceInv_init n ext)
  have hsi := SIInv_trace h (SIInv_init n ext)
  have hl := raceTrace_SI_length h
  have hm : raceMeasure (raceInit n ext) = 3 * n := raceMeasure_init n ext
  refine ⟨by omega, hv.2.2.2.2.1, ?_, ?_⟩
  · rintro ⟨pc, hmem, hpc⟩
    obtain ⟨u, hu⟩ := List.mem_iff_getElem?.1 hmem
    exact raceSI_progress s u pc hu hpc
  · intro hall
    have hlen : s.pcs.length = n := by
      rw [raceTrace_pcs_length h]
      simp [raceInit]
    have h0 : 0 < s.pcs.length := by omega
    have hg : s.pcs[0]? = some WorkerPC.done := by
      rw [List.getElem?_eq_getElem h0]
      exact congrArg some (hall _ (List.getElem_mem h0))
    have herr : s.error = some () := hsi.2.2.2 0 hg
    have hstop : s.stop_flag = true := hv.2.2.2.2.2.2.1 herr
    exact ⟨herr, hstop, by simp [raceReturn, herr]⟩

/-- Witness for C4: one worker, a session-invalid endpoint; the concrete
three-step run finishes with the error slot filled, the stop flag set, and
the fetch call reporting the session error. -/
theorem C4_session_invalid_terminates_witness :
    RaceTrace envSessionInvalid (raceInit 1 false)
      [.check 0 false, .fetch 0 .sessionErr, .errWrite 0] raceSIEnd ∧
    raceSIEnd.error = some () ∧ raceSIEnd.stop_flag = true ∧
    raceReturn "Day1" raceSIEnd = .error () ∧
    ([RaceLabel.check 0 false, .fetch 0 .sessionErr, .errWrite 0].length ≤ 3 * 1) := by
  have htr : RaceTrace envSessionInvalid (raceInit 1 false)
      [.check 0 false, .fetch 0 .sessionErr, .errWrite 0] raceSIEnd :=
    RaceTrace.cons (RaceStep.check_go rfl rfl)
      (RaceTrace.cons (RaceStep.fetch rfl rfl)
        (RaceTrace.cons (RaceStep.errWrite rfl rfl) RaceTrace.nil))
  have h := C4_session_invalid_terminates 1 false "Day1" _ raceSIEnd
    (Nat.le_refl 1) htr
  have hd := h.2.2.2 (by decide)
  exact ⟨htr, hd.1, hd.2.1, hd.2.2, h.1⟩

/-- C5 counterexample: race workers never observe the caller's cancellation
token — `fetch_announcement_list` is not given the controller's `stop_flag`
and `_fetch_worker` reads only the fetcher's own internal flags.  Concretely,
with the external token set from the very start (`extCancel = true`), a lone
worker legally runs through two full backoff intervals and issues two further
remote calls, ending once more in-flight rather than in any cancelled
terminal state — refuting the claim that every in-flight race worker reaches
a cancelled terminal within one polling interval of the token being
requested. -/
theorem C5_cancellation_race_counterexample :
    RaceTrace envAny (raceInit 1 true) cancelIgnoredTrace cancelIgnoredEnd ∧
    (raceInit 1 true).extCancel = true ∧
    cancelIgnoredEnd.extCancel = true ∧
    cancelIgnoredEnd.pcs = [.fetching] ∧
    cancelIgnoredTrace.count (.fetch 0 .noData) = 2 ∧
    cancelIgnoredTrace.count (.wake 0) = 2 := by
  refine ⟨?_, rfl, rfl, rfl, by decide, by decide⟩
  exact RaceTrace.cons (RaceStep.check_go rfl rfl)
    (RaceTrace.cons (RaceStep.fetch rfl True.intro)
      (RaceTrace.cons (RaceStep.wake rfl)
        (RaceTrace.cons (RaceStep.check_go rfl rfl)
          (RaceTrace.cons (RaceStep.fetch rfl True.intro)
            (RaceTrace.cons (RaceStep.wake rfl)
              (RaceTrace.cons (RaceStep.check_go rfl rfl) RaceTrace.nil))))))

/-- C5 (amended): once the shared token is requested, every in-flight
per-account redemption loop returns the `Cancelled` terminal at its very
next iteration-top check — within one polling interval — performing no
further submission and leaving no result to be overwritten; race workers,
however, never observe the external token: the race's step relation is
entirely independent of it (any step taken with one token value can be taken
with any other), so an in-progress race is not stopped by external
cancellation and only an internal win or session error stops it. -/
theorem C5_cancellation_amended :
    (∀ (env : RedeemEnv) (fuel attempt : Nat), env.stopSet attempt = true →
      redeemGo env (fuel + 1) attempt = (some ⟨false, "用户取消执行", none⟩, [])) ∧
    (∀ (env : FetchOutcome → Prop) (s s' : RaceState) (l : RaceLabel) (b : Bool),
      RaceStep env s l s' →
      RaceStep env {s with extCancel := b} l {s' with extCancel := b}) := by
  constructor
  · intro env fuel attempt hstop
    simp [redeemGo, hstop]
  · intro env s s' l b h
    cases h with
    | check_exit hw hs => exact RaceStep.check_exit hw hs
    | check_go hw hs => exact RaceStep.check_go hw hs
    | fetch hw ho => exact RaceStep.fetch hw ho
    | winWrite hw hg => exact RaceStep.winWrite hw hg
    | winSkip hw hg => exact RaceStep.winSkip hw hg
    | errWrite hw hg => exact RaceStep.errWrite hw hg
    | errSkip hw hg => exact RaceStep.errSkip hw hg
    | wake hw => exact RaceStep.wake hw

/-- Witness for the amended C5: a loop whose stop flag is set returns the
cancelled terminal on its next check, and a concrete race step taken with the
token unset can equally be taken with the token set. -/
theorem C5_cancellation_amended_witness :
    redeemGo stoppedEnv 1 0 = (some ⟨false, "用户取消执行", none⟩, []) ∧
    RaceStep envAny (raceInit 1 true) (.check 0 false) cancelIgnoredEnd := by
  refine ⟨C5_cancellation_amended.1 stoppedEnv 0 0 rfl, ?_⟩
  exact C5_cancellation_amended.2 envAny (raceInit 1 false) _ (.check 0 false) true
    (RaceStep.check_go rfl rfl)

/-- C9: For every successful discovery payload and keyword, the keyword-match
step returns the id of the first item whose title contains the keyword as a
substring (`List.find?` order), returns `None` exactly when no item's title
contains it, and on the spec scenario
`[{title:"Event Day0", id:10}, {title:"Event Day1", id:11}]` with keyword
`"Day1"` it returns id 11. -/
theorem C9_keyword_first_match (kw : String) (items : List Announcement) :
    findAnnouncement kw items =
      (items.find? fun a => containsSub kw a.title).map (fun a => a.id) ∧
    (findAnnouncement kw items = none ↔
      ∀ a ∈ items, containsSub kw a.title = false) ∧
    findAnnouncement "Day1" [⟨"Event Day0", 10⟩, ⟨"Event Day1", 11⟩] = some 11 := by
  have hfind : ∀ l : List Announcement, findAnnouncement kw l =
      (l.find? fun a => containsSub kw a.title).map (fun a => a.id) := by
    intro l
    induction l with
    | nil => rfl
    | cons x xs ih =>
      by_cases hx : containsSub kw x.title = true
      · rw [findAnnouncement, if_pos hx, List.find?_cons_of_pos xs hx]
        rfl
      · rw [findAnnouncement, if_neg hx, List.find?_cons_of_neg xs hx, ih]
  refine ⟨hfind items, ?_, by decide⟩
  rw [hfind items]
  constructor
  · intro h a ha
    have : (items.find? fun a => containsSub kw a.title) = none := by
      cases hf : items.find? fun a => containsSub kw a.title with
      | none => rfl
      | some b => rw [hf] at h; exact absurd h (by simp)
    have := List.find?_eq_none.1 this a ha
    simpa using this
  · intro h
    rw [List.find?_eq_none.2 (by intro x hx; simp [h x hx])]
    rfl

/-- Witness for C9: the spec scenario returns id 11, and a keyword contained
in no title returns `None`. -/
theorem C9_keyword_first_match_witness :
    findAnnouncement "Day1" [⟨"Event Day0", 10⟩, ⟨"Event Day1", 11⟩] = some 11 ∧
    findAnnouncement "Day9" [⟨"Event Day0", 10⟩, ⟨"Event Day1", 11⟩] = none := by
  refine ⟨(C9_keyword_first_match "Day1" []).2.2, ?_⟩
  exact (C9_keyword_first_match "Day9"
    [⟨"Event Day0", 10⟩, ⟨"Event Day1", 11⟩]).2.1.2 (by decide)

/-! ## Helper lemmas about the pool coordinator -/

/-- The results array keeps its length as workers complete. -/
theorem execute_concurrent_length (renvs : List RedeemEnv) (fuel : Nat) :
    ∀ (order : List Nat) (acc : List (Option RedeemOutcome)),
      (order.foldl (fun acc i => acc.set i (redeem (renvs.getD i default) fuel))
        acc).length = acc.length := by
  intro order
  induction order with
  | nil => intro acc; rfl
  | cons i rest ih =>
    intro acc
    rw [List.foldl_cons, ih]
    simp

/-- What the results array holds at index `j` after a set of completions:
the completed worker's own outcome at its own index, untouched slots
elsewhere. -/
theorem execute_concurrent_getElem? (renvs : List RedeemEnv) (fuel : Nat) :
    ∀ (order : List Nat) (acc : List (Option RedeemOutcome)) (j : Nat),
      (order.foldl (fun acc i => acc.set i (redeem (renvs.getD i default) fuel))
        acc)[j]? =
        if j ∈ order ∧ j < acc.length then some (redeem (renvs.getD j default) fuel)
        else acc[j]? := by
  intro order
  induction order with
  | nil =>
    intro acc j
    simp
  | cons i rest ih =>
    intro acc j
    rw [List.foldl_cons, ih]
    by_cases hjr : j ∈ rest
    · by_cases hjl : j < acc.length
      · rw [if_pos ⟨hjr, by simpa using hjl⟩,
          if_pos ⟨List.mem_cons_of_mem i hjr, hjl⟩]
      · rw [if_neg (by simp [hjl]), if_neg (by simp [hjl])]
        have hl1 : acc.length ≤ j := Nat.le_of_not_lt hjl
        rw [List.getElem?_eq_none (by simpa using hl1), List.getElem?_eq_none hl1]
    · by_cases hji : j = i
      · subst hji
        by_cases hjl : j < acc.length
        · rw [if_neg (by simp [hjr]), if_pos ⟨List.mem_cons_self j rest, hjl⟩,
            getElem?_set_self_of_lt _ _ _ hjl]
        · rw [if_neg (by simp [hjl]), if_neg (by simp [hjl])]
          have hl1 : acc.length ≤ j := Nat.le_of_not_lt hjl
          rw [List.getElem?_eq_none (by simpa using hl1), List.getElem?_eq_none hl1]
      · rw [if_neg (by simp [hjr]), if_neg ?hnot,
          List.getElem?_set_ne (Ne.symm hji)]
        case hnot =>
          rintro ⟨hmem, _⟩
          rcases List.mem_cons.1 hmem with hh | hh
          · exact hji hh
          · exact hjr hh

/-- Whatever the completion order, once every worker has completed the
results array equals the per-account outcomes in account-construction
order. -/
theorem execute_concurrent_perm (renvs : List RedeemEnv) (fuel : Nat)
    (order : List Nat) (hperm : order.Perm (List.range renvs.length)) :
    execute_concurrent renvs fuel order =
      (List.range renvs.length).map fun i => redeem (renvs.getD i default) fuel := by
  apply List.ext_getElem?
  intro j
  unfold execute_concurrent
  rw [execute_concurrent_getElem? renvs fuel order (List.replicate renvs.length none) j]
  have hmem : j ∈ order ↔ j < renvs.length := by
    rw [hperm.mem_iff, List.mem_range]
  by_cases hj : j < renvs.length
  · rw [if_pos ⟨hmem.2 hj, by simpa using hj⟩, List.getElem?_map,
      List.getElem?_eq_getElem (by simpa using hj)]
    simp
  · rw [if_neg (by simp [hmem, hj]), List.getElem?_eq_none (by simpa using Nat.le_of_not_lt hj),
      List.getElem?_eq_none (by simpa using Nat.le_of_not_lt hj)]

/-- A loop terminal with `success = true` is one of the two success
terminals: the code-0 success or the already-qualified message. -/
theorem redeem_success_message (renv : RedeemEnv) :
    ∀ (fuel attempt : Nat) (out : RedeemOutcome),
      (redeemGo renv fuel attempt).1 = some out → out.success = true →
      out.message = "兑换成功!" ∨ out.message = "已有测试资格" := by
  intro fuel
  induction fuel with
  | zero =>
    intro attempt out h
    exact absurd h (by simp [redeemGo])
  | succ n ih =>
    intro attempt out h hsucc
    by_cases hstop : renv.stopSet attempt
    · simp only [redeemGo, hstop, if_true] at h
      rw [← (Option.some_inj).1 h] at hsucc
      exact absurd hsucc (by simp)
    · cases himg : renv.captchaImageAt (attempt + 1) with
      | none =>
        simp only [redeemGo, hstop, himg, Bool.false_eq_true, if_false] at h
        exact ih (attempt + 1) out h hsucc
      | some img =>
        by_cases himgne : img = []
        · simp only [redeemGo, hstop, himg, himgne, Bool.false_eq_true, if_false,
            if_true] at h
          exact ih (attempt + 1) out h hsucc
        · cases hcap : renv.captchaAt (attempt + 1) with
          | none =>
            simp only [redeemGo, hstop, himg, himgne, hcap, Bool.false_eq_true,
              if_false] at h
            exact ih (attempt + 1) out h hsucc
          | some cap =>
            by_cases hcapne : cap = ""
            · simp only [redeemGo, hstop, himg, himgne, hcap, hcapne,
                Bool.false_eq_true, if_false, if_true] at h
              exact ih (attempt + 1) out h hsucc
            · cases hclass : classifySubmit (renv.submitAt (attempt + 1)) <;>
                simp only [redeemGo, hstop, himg, himgne, hcap, hcapne, hclass,
                  Bool.false_eq_true, if_false] at h
              · rw [← (Option.some_inj).1 h]
                exact Or.inl rfl
              · rw [← (Option.some_inj).1 h]
                exact Or.inr rfl
              · rw [← (Option.some_inj).1 h] at hsucc
                exact absurd hsucc (by simp)
              · rw [← (Option.some_inj).1 h] at hsucc
                exact absurd hsucc (by simp)
              · exact ih (attempt + 1) out h hsucc
              · exact ih (attempt + 1) out h hsucc

/-- C8: For every pool of `M` accounts and any completion order, the
concurrent run returns exactly `M` results, the `i`-th entry being the
`i`-th account's own terminal outcome (account-construction order,
independent of completion order); the aggregate pipeline verdict is a
success iff at least one per-account result carries `success = true` — and
any loop terminal with `success = true` is one of the two success terminals
(code-0 success or already-qualified) — and the aggregate always carries the
succeeded/total counts and the full per-account result collection. -/
theorem C8_pool_aggregate (renvs : List RedeemEnv) (fuel : Nat)
    (order : List Nat) (hperm : order.Perm (List.range renvs.length)) :
    execute_concurrent renvs fuel order =
      (List.range renvs.length).map (fun i => redeem (renvs.getD i default) fuel) ∧
    (execute_concurrent renvs fuel order).length = renvs.length ∧
    ((aggregateResult (execute_concurrent renvs fuel order)).success = true ↔
      ∃ r ∈ execute_concurrent renvs fuel order,
        ∃ d, r = some d ∧ d.success = true) ∧
    (aggregateResult (execute_concurrent renvs fuel order)).results =
      execute_concurrent renvs fuel order ∧
    (aggregateResult (execute_concurrent renvs fuel order)).total_count =
      renvs.length ∧
    (aggregateResult (execute_concurrent renvs fuel order)).success_count =
      success_count (execute_concurrent renvs fuel order) ∧
    (∀ (renv : RedeemEnv) (g : Nat) (out : RedeemOutcome),
      redeem renv g = some out → out.success = true →
      out.message = "兑换成功!" ∨ out.message = "已有测试资格") := by
  have hconstr := execute_concurrent_perm renvs fuel order hperm
  have hlenr : (execute_concurrent renvs fuel order).length = renvs.length := by
    rw [hconstr]
    simp
  have hiff : (aggregateResult (execute_concurrent renvs fuel order)).success = true ↔
      ∃ r ∈ execute_concurrent renvs fuel order, ∃ d, r = some d ∧ d.success = true := by
    by_cases hk : success_count (execute_concurrent renvs fuel order) > 0
    · simp only [aggregateResult, if_pos hk]
      constructor
      · intro _
        obtain ⟨r, hr, hp⟩ := List.countP_pos_iff.1 hk
        cases r with
        | none => exact absurd hp (by simp)
        | some d => exact ⟨some d, hr, d, rfl, hp⟩
      · intro _
        trivial
    · simp only [aggregateResult, if_neg hk]
      constructor
      · intro hh
        exact absurd hh (by simp)
      · rintro ⟨r, hr, d, rfl, hd⟩
        exact absurd (List.countP_pos_iff.2 ⟨some d, hr, by simp [hd]⟩) hk
  refine ⟨hconstr, hlenr, hiff, ?_, ?_, ?_,
    fun renv g out h hs => redeem_success_message renv g 0 out h hs⟩
  · by_cases hk : success_count (execute_concurrent renvs fuel order) > 0 <;>
      simp [aggregateResult, hk]
  · by_cases hk : success_count (execute_concurrent renvs fuel order) > 0 <;>
      simp [aggregateResult, hk, hlenr]
  · by_cases hk : success_count (execute_concurrent renvs fuel order) > 0
    · simp [aggregateResult, hk]
    · simp [aggregateResult, hk]
      omega

/-- Witness for C8: two accounts, the first succeeding with code 0, the
second hitting quota exhaustion, completing in reverse order `[1, 0]`: the
results come back in construction order and the aggregate is a success. -/
theorem C8_pool_aggregate_witness :
    execute_concurrent
        [steadyEnv [1] "abcd" ⟨0, "OK"⟩, steadyEnv [1] "abcd" ⟨100001, "已抢完"⟩]
        1 [1, 0] =
      [some ⟨true, "兑换成功!", some ⟨0, "OK"⟩⟩,
       some ⟨false, "兑换失败: 已抢完 (兑换码已抢完)", some ⟨100001, "已抢完"⟩⟩] ∧
    (aggregateResult (execute_concurrent
        [steadyEnv [1] "abcd" ⟨0, "OK"⟩, steadyEnv [1] "abcd" ⟨100001, "已抢完"⟩]
        1 [1, 0])).success = true := by
  have h := C8_pool_aggregate
    [steadyEnv [1] "abcd" ⟨0, "OK"⟩, steadyEnv [1] "abcd" ⟨100001, "已抢完"⟩]
    1 [1, 0] (by decide)
  have hres : execute_concurrent
      [steadyEnv [1] "abcd" ⟨0, "OK"⟩, steadyEnv [1] "abcd" ⟨100001, "已抢完"⟩]
      1 [1, 0] =
    [some ⟨true, "兑换成功!", some ⟨0, "OK"⟩⟩,
     some ⟨false, "兑换失败: 已抢完 (兑换码已抢完)", some ⟨100001, "已抢完"⟩⟩] :=
    h.1.trans (by decide)
  refine ⟨hres, h.2.2.1.2 ?_⟩
  rw [hres]
  exact ⟨some ⟨true, "兑换成功!", some ⟨0, "OK"⟩⟩, by simp,
    ⟨true, "兑换成功!", some ⟨0, "OK"⟩⟩, rfl, rfl⟩

/-! ## Helper lemmas about the pipeline stages -/

/-- The discovery stage performs no redemption work and can only halt the
run with the cancellation result. -/
theorem discoverLoop_inv (env : PipeEnv) :
    ∀ (fuel tick attempt : Nat),
      PipeEvent.redeemStart ∉ (discoverLoop env fuel tick attempt).2 ∧
      ∀ r, (discoverLoop env fuel tick attempt).1 = .halt r →
        r = errorResult "用户取消执行" := by
  intro fuel
  induction fuel with
  | zero =>
    intro tick attempt
    exact ⟨by simp [discoverLoop], fun r h => by simp [discoverLoop] at h⟩
  | succ n ih =>
    intro tick attempt
    by_cases hstop : env.stopAt tick
    · refine ⟨by simp [discoverLoop, hstop], fun r h => ?_⟩
      simp only [discoverLoop, hstop, if_true] at h
      injection h with h2
      exact h2.symm
    · cases hf : env.fetchAnn (attempt + 1) with
      | some annId =>
        refine ⟨by simp [discoverLoop, hstop, hf], fun r h => ?_⟩
        simp [discoverLoop, hstop, hf] at h
      | none =>
        have hr := ih (tick + 1) (attempt + 1)
        refine ⟨?_, fun r h => ?_⟩
        · simp only [discoverLoop, hstop, hf, Bool.false_eq_true, if_false,
            List.mem_cons]
          rintro (hh | hh)
          · exact PipeEvent.noConfusion hh
          · exact hr.1 hh
        · simp only [discoverLoop, hstop, hf, Bool.false_eq_true, if_false] at h
          exact hr.2 r h

/-- The detail stage performs no redemption work and can only halt the run
with the cancellation result. -/
theorem detailLoop_inv (env : PipeEnv) (annId : Nat) :
    ∀ (fuel tick attempt : Nat),
      PipeEvent.redeemStart ∉ (detailLoop env annId fuel tick attempt).2 ∧
      ∀ r, (detailLoop env annId fuel tick attempt).1 = .halt r →
        r = errorResult "用户取消执行" := by
  intro fuel
  induction fuel with
  | zero =>
    intro tick attempt
    exact ⟨by simp [detailLoop], fun r h => by simp [detailLoop] at h⟩
  | succ n ih =>
    intro tick attempt
    by_cases hstop : env.stopAt tick
    · refine ⟨by simp [detailLoop, hstop], fun r h => ?_⟩
      simp only [detailLoop, hstop, if_true] at h
      injection h with h2
      exact h2.symm
    · cases hf : env.detailAt annId (attempt + 1) with
      | some content =>
        refine ⟨by simp [detailLoop, hstop, hf], fun r h => ?_⟩
        simp [detailLoop, hstop, hf] at h
      | none =>
        have hr := ih (tick + 1) (attempt + 1)
        refine ⟨?_, fun r h => ?_⟩
        · simp only [detailLoop, hstop, hf, Bool.false_eq_true, if_false,
            List.mem_cons]
          rintro (hh | hh)
          · exact PipeEvent.noConfusion hh
          · exact hr.1 hh
        · simp only [detailLoop, hstop, hf, Bool.false_eq_true, if_false] at h
          exact hr.2 r h

/-- The extraction stage performs no redemption work and can only halt the
run with the cancellation result. -/
theorem extractLoop_inv (env : PipeEnv) (content : String) :
    ∀ (fuel tick attempt : Nat),
      PipeEvent.redeemStart ∉ (extractLoop env content fuel tick attempt).2 ∧
      ∀ r, (extractLoop env content fuel tick attempt).1 = .halt r →
        r = errorResult "用户取消执行" := by
  intro fuel
  induction fuel with
  | zero =>
    intro tick attempt
    exact ⟨by simp [extractLoop], fun r h => by simp [extractLoop] at h⟩
  | succ n ih =>
    intro tick attempt
    by_cases hstop : env.stopAt tick
    · refine ⟨by simp [extractLoop, hstop], fun r h => ?_⟩
      simp only [extractLoop, hstop, if_true] at h
      injection h with h2
      exact h2.symm
    · cases hf : env.extract content with
      | some pw =>
        refine ⟨by simp [extractLoop, hstop, hf], fun r h => ?_⟩
        simp [extractLoop, hstop, hf] at h
      | none =>
        have hr := ih (tick + 1) (attempt + 1)
        refine ⟨?_, fun r h => ?_⟩
        · simp only [extractLoop, hstop, hf, Bool.false_eq_true, if_false,
            List.mem_cons]
          rintro (hh | hh)
          · exact PipeEvent.noConfusion hh
          · exact hr.1 hh
        · simp only [extractLoop, hstop, hf, Bool.false_eq_true, if_false] at h
          exact hr.2 r h

/-- C6 counterexample: the empty-account-list precondition is not checked
before remote work.  With keyword `"Day1"`, no accounts, and a cooperative
remote service, the pipeline performs a discovery call, a detail retrieval
and an extraction — a nonempty external-work trace — before failing with
the cookie-pool error, refuting the claim that a configuration with an
empty account list fails before any remote work is started. -/
theorem C6_precondition_counterexample :
    execute ⟨"Day1", []⟩ promptEnv 5 [] =
      (some (errorResult "Cookie池未初始化,请添加至少一个Cookie"),
       [.discoveryCall 1, .detailCall 1, .extractCall 1]) ∧
    ¬ (execute ⟨"Day1", []⟩ promptEnv 5 []).2 = [] := by
  exact ⟨by decide, by decide⟩

/-- C6 (amended): a missing announcement keyword fails immediately, before
any work at all, with the descriptive error `公告关键字未配置`; an empty
account list also produces a descriptive failure (`success = false`) and
never starts redemption work, but that check happens only at step 4, after
the discovery, detail-retrieval and extraction stages have run. -/
theorem C6_precondition_amended (cfg : PipeConfig) (env : PipeEnv) (fuel : Nat)
    (order : List Nat) :
    (cfg.announcement_keyword = "" →
      execute cfg env fuel order = (some (errorResult "公告关键字未配置"), [])) ∧
    (cfg.web_cookies = [] →
      PipeEvent.redeemStart ∉ (execute cfg env fuel order).2 ∧
      ∀ r, (execute cfg env fuel order).1 = some r → r.success = false) := by
  constructor
  · intro hkw
    simp [execute, hkw]
  · intro hck
    by_cases hkw : cfg.announcement_keyword = ""
    · refine ⟨by simp [execute, hkw], fun r h => ?_⟩
      simp only [execute, hkw, if_true] at h
      rw [← (Option.some_inj).1 h]
      rfl
    · unfold execute
      rw [if_neg hkw]
      split
      · rename_i evs1 heq1
        obtain ⟨hnv1, _⟩ := discoverLoop_inv env fuel 0 0
        rw [heq1] at hnv1
        exact ⟨hnv1, fun r h => by cases h⟩
      · rename_i r1 evs1 heq1
        obtain ⟨hnv1, hh1⟩ := discoverLoop_inv env fuel 0 0
        rw [heq1] at hnv1 hh1
        refine ⟨hnv1, fun r h => ?_⟩
        rw [← (Option.some_inj).1 h, hh1 r1 rfl]
        rfl
      · rename_i annId tick1 evs1 heq1
        obtain ⟨hnv1, _⟩ := discoverLoop_inv env fuel 0 0
        rw [heq1] at hnv1
        split
        · rename_i evs2 heq2
          obtain ⟨hnv2, _⟩ := detailLoop_inv env annId fuel tick1 0
          rw [heq2] at hnv2
          refine ⟨?_, fun r h => by cases h⟩
          simp only [List.mem_append]
          rintro (hh | hh)
          · exact hnv1 hh
          · exact hnv2 hh
        · rename_i r2 evs2 heq2
          obtain ⟨hnv2, hh2⟩ := detailLoop_inv env annId fuel tick1 0
          rw [heq2] at hnv2 hh2
          refine ⟨?_, fun r h => ?_⟩
          · simp only [List.mem_append]
            rintro (hh | hh)
            · exact hnv1 hh
            · exact hnv2 hh
          · rw [← (Option.some_inj).1 h, hh2 r2 rfl]
            rfl
        · rename_i content tick2 evs2 heq2
          obtain ⟨hnv2, _⟩ := detailLoop_inv env annId fuel tick1 0
          rw [heq2] at hnv2
          split
          · rename_i evs3 heq3
            obtain ⟨hnv3, _⟩ := extractLoop_inv env content fuel tick2 0
            rw [heq3] at hnv3
            refine ⟨?_, fun r h => by cases h⟩
            simp only [List.mem_append]
            rintro ((hh | hh) | hh)
            · exact hnv1 hh
            · exact hnv2 hh
            · exact hnv3 hh
          · rename_i r3 evs3 heq3
            obtain ⟨hnv3, hh3⟩ := extractLoop_inv env content fuel tick2 0
            rw [heq3] at hnv3 hh3
            refine ⟨?_, fun r h => ?_⟩
            · simp only [List.mem_append]
              rintro ((hh | hh) | hh)
              · exact hnv1 hh
              · exact hnv2 hh
              · exact hnv3 hh
            · rw [← (Option.some_inj).1 h, hh3 r3 rfl]
              rfl
          · rename_i pw tick3 evs3 heq3
            obtain ⟨hnv3, _⟩ := extractLoop_inv env content fuel tick2 0
            rw [heq3] at hnv3
            rw [if_pos hck]
            refine ⟨?_, fun r h => ?_⟩
            · simp only [List.mem_append]
              rintro ((hh | hh) | hh)
              · exact hnv1 hh
              · exact hnv2 hh
              · exact hnv3 hh
            · rw [← (Option.some_inj).1 h]
              rfl

/-- Witness for the amended C6: a missing keyword fails immediately with no
work, and an empty account list never reaches redemption. -/
theorem C6_precondition_amended_witness :
    execute ⟨"", ["c"]⟩ promptEnv 3 [] =
      (some (errorResult "公告关键字未配置"), []) ∧
    PipeEvent.redeemStart ∉ (execute ⟨"Day1", []⟩ promptEnv 3 []).2 := by
  exact ⟨(C6_precondition_amended ⟨"", ["c"]⟩ promptEnv 3 []).1 rfl,
    ((C6_precondition_amended ⟨"Day1", []⟩ promptEnv 3 []).2 rfl).1⟩
